import Mathlib

/- Verification of the genetic-algorithm and particle-simulation core of the
autonomous car simulation. The definitions below are shallow embeddings of the
JavaScript sources (src/js/config.js, src/js/ga.js, src/js/ray.js): JavaScript
numbers are modelled exactly as rationals where every operation of the source
is a field operation, and as reals where the source takes square roots
(p5.Vector.limit, pldistance). -/

/-! ## Configuration constants (src/js/config.js and the sketch) -/

/-- config.js: number of cars in each generation. -/
def TOTAL : ℕ := 100

/-- config.js: maximum frames a car can live without progress. -/
def LIFESPAN : ℕ := 30

/-- config.js: sensor range in pixels. -/
def SIGHT : ℚ := 80

/-- config.js: number of top agents carried over to the next generation. -/
def ELITISM_COUNT : ℕ := 1

/-! ## Fitness shaping and normalization
(ray.js Particle.calculateFitness and ga.js calculateFitness) -/

/-- Particle.calculateFitness (ray.js): the raw checkpoint count stored in the
fitness field is replaced by pow(2, fitness). -/
def particleCalculateFitness (raw : ℕ) : ℚ := 2 ^ raw

/-- First loop of ga.js calculateFitness: shape every saved agent's raw
fitness. The pool is represented by the list of raw checkpoint counts. -/
def shapedPool (raw : List ℕ) : List ℚ := raw.map particleCalculateFitness

/-- ga.js calculateFitness: shape every fitness, sum the shaped values, then
divide each shaped value by the sum. -/
def calculateFitness (raw : List ℕ) : List ℚ :=
  (shapedPool raw).map (fun f => f / (shapedPool raw).sum)

theorem sum_map_div (l : List ℚ) (s : ℚ) :
    (l.map (fun f => f / s)).sum = l.sum / s := by
  induction l with
  | nil => simp
  | cons a t ih => simp [add_div, ih]

theorem one_le_shaped (f : ℕ) : (1 : ℚ) ≤ particleCalculateFitness f := by
  exact one_le_pow₀ (by norm_num)

theorem length_le_shapedPool_sum (raw : List ℕ) :
    (raw.length : ℚ) ≤ (shapedPool raw).sum := by
  induction raw with
  | nil => simp [shapedPool]
  | cons f rest ih =>
    have h1 := one_le_shaped f
    simp only [shapedPool, List.map_cons, List.sum_cons, List.length_cons] at *
    push_cast
    linarith

theorem shapedPool_sum_pos (raw : List ℕ) (h : raw ≠ []) :
    0 < (shapedPool raw).sum := by
  have hlen : 1 ≤ raw.length := List.length_pos.mpr h
  have := length_le_shapedPool_sum raw
  have : (1 : ℚ) ≤ (shapedPool raw).sum := by
    calc (1 : ℚ) ≤ (raw.length : ℚ) := by exact_mod_cast hlen
    _ ≤ _ := length_le_shapedPool_sum raw
  linarith

/-- C1: calculateFitness first replaces every raw checkpoint count f by the
shaped value 2^f, then divides each shaped value by the pool sum, so the
normalized fitness values of any non-empty pool sum to 1; raw counts [1, 2, 0]
shape to [2, 4, 1] and normalize to [2/7, 4/7, 1/7]. -/
theorem C1_fitness_normalization (raw : List ℕ) (h : raw ≠ []) :
    (calculateFitness raw).sum = 1 ∧
    shapedPool [1, 2, 0] = [2, 4, 1] ∧
    calculateFitness [1, 2, 0] = [2/7, 4/7, 1/7] := by
  refine ⟨?_, ?_, ?_⟩
  · have hpos := shapedPool_sum_pos raw h
    rw [calculateFitness, sum_map_div, div_self (by linarith)]
  · norm_num [shapedPool, particleCalculateFitness]
  · norm_num [calculateFitness, shapedPool, particleCalculateFitness]

/-- Witness for C1 at the pool with raw counts [1, 2, 0]. -/
theorem C1_fitness_normalization_witness :
    (calculateFitness [1, 2, 0]).sum = 1 ∧
    shapedPool [1, 2, 0] = [2, 4, 1] ∧
    calculateFitness [1, 2, 0] = [2/7, 4/7, 1/7] :=
  C1_fitness_normalization [1, 2, 0] (by simp)

/-- C9: shaping maps every raw count to a value of at least 1, so the
normalization divisor is at least the pool size and nonzero for a non-empty
pool; an all-zero pool normalizes to the uniform distribution 1/n. -/
theorem C9_divisor_never_zero (raw : List ℕ) (h : raw ≠ []) (n : ℕ) (hn : 0 < n) :
    (raw.length : ℚ) ≤ (shapedPool raw).sum ∧
    (shapedPool raw).sum ≠ 0 ∧
    calculateFitness (List.replicate n 0) = List.replicate n ((1 : ℚ) / n) := by
  refine ⟨length_le_shapedPool_sum raw, ?_, ?_⟩
  · have := shapedPool_sum_pos raw h
    linarith
  · have hshape : shapedPool (List.replicate n 0) = List.replicate n 1 := by
      simp [shapedPool, particleCalculateFitness]
    have hsum : (List.replicate n (1 : ℚ)).sum = n := by
      simp [List.sum_replicate]
    rw [calculateFitness, hshape, hsum, List.map_replicate]

/-- Witness for C9 at the all-zero pool of size 3. -/
theorem C9_divisor_never_zero_witness :
    ((3 : ℚ) ≤ (shapedPool [0, 0, 0]).sum ∧
      (shapedPool [0, 0, 0]).sum ≠ 0 ∧
      calculateFitness (List.replicate 3 0) = List.replicate 3 ((1 : ℚ) / 3)) := by
  have h := C9_divisor_never_zero [0, 0, 0] (by simp) 3 (by norm_num)
  simpa using h

/-! ## Roulette-wheel selection (ga.js pickOne) -/

/-- Number of iterations performed by the while-loop of ga.js pickOne: while r
is positive, subtract the fitness at the current index and advance the index.
When the index runs past the end of the array, the JavaScript loop executes one
more iteration (subtracting undefined makes r NaN, and NaN > 0 is false), so an
exhausted list still counts one step when r is positive. -/
def rouletteSteps : List ℚ → ℚ → ℕ
  | [], r => if 0 < r then 1 else 0
  | f :: rest, r => if 0 < r then rouletteSteps rest (r - f) + 1 else 0

/-- Index selected by ga.js pickOne: the loop counter after the loop, minus one
(the final index-- of the source). -/
def pickOneIndex (fits : List ℚ) (r : ℚ) : ℤ := (rouletteSteps fits r : ℤ) - 1

theorem rouletteSteps_eq_zero (fits : List ℚ) (r : ℚ) (h : ¬ 0 < r) :
    rouletteSteps fits r = 0 := by
  cases fits <;> simp [rouletteSteps, h]

theorem rouletteSteps_bounds (fits : List ℚ) (r : ℚ) (hr : 0 < r)
    (hsum : r ≤ fits.sum) :
    1 ≤ rouletteSteps fits r ∧ rouletteSteps fits r ≤ fits.length := by
  induction fits generalizing r with
  | nil => simp at hsum; linarith
  | cons f rest ih =>
    simp only [rouletteSteps, if_pos hr, List.length_cons]
    simp only [List.sum_cons] at hsum
    by_cases hr2 : 0 < r - f
    · have := ih (r - f) hr2 (by linarith)
      omega
    · rw [rouletteSteps_eq_zero rest (r - f) hr2]
      omega

/-- C10 (amended): for every pool whose fitness values are positive and sum to
1 and every draw r strictly between 0 and 1, the selected index lies within the
bounds of the pool. (As stated, with r = 0 allowed, the claim fails: see the
counterexample.) -/
theorem C10_pickOne_in_bounds (fits : List ℚ) (r : ℚ)
    (hpos : ∀ f ∈ fits, 0 < f) (hsum : fits.sum = 1) (h0 : 0 < r) (h1 : r < 1) :
    0 ≤ pickOneIndex fits r ∧ pickOneIndex fits r < fits.length := by
  have hb := rouletteSteps_bounds fits r h0 (by rw [hsum]; linarith)
  unfold pickOneIndex
  omega

/-- Witness for C10 (amended) at the pool [1/2, 1/2] and draw 1/4. -/
theorem C10_pickOne_in_bounds_witness :
    0 ≤ pickOneIndex [1/2, 1/2] (1/4) ∧
    pickOneIndex [1/2, 1/2] (1/4) < ([(1 : ℚ)/2, 1/2] : List ℚ).length := by
  refine C10_pickOne_in_bounds [1/2, 1/2] (1/4) ?_ ?_ ?_ ?_
  · intro f hf
    simp only [List.mem_cons, List.not_mem_nil, or_false] at hf
    rcases hf with h | h <;> rw [h] <;> norm_num
  · norm_num
  · norm_num
  · norm_num

/-- Counterexample for C10 as stated: the draw r = 0 lies in [0, 1), the pool
[1] has all-positive fitness summing to 1, yet the loop body never runs and the
final index-- yields -1, outside the bounds of the pool. -/
theorem C10_pickOne_counterexample :
    (0 : ℚ) ≤ 0 ∧ (0 : ℚ) < 1 ∧
    (∀ f ∈ [(1 : ℚ)], 0 < f) ∧ ([(1 : ℚ)].sum = 1) ∧
    pickOneIndex [(1 : ℚ)] 0 = -1 ∧
    ¬ (0 ≤ pickOneIndex [(1 : ℚ)] 0) := by
  refine ⟨le_refl 0, by norm_num, ?_, by norm_num, ?_, ?_⟩
  · intro f hf
    simp at hf
    rw [hf]; norm_num
  · norm_num [pickOneIndex, rouletteSteps]
  · norm_num [pickOneIndex, rouletteSteps]

/-! ## Brains and generation advance (nn.js and ga.js nextGeneration) -/

/-- Neural-network brain (nn.js NeuralNetwork). The TensorFlow model is
abstracted to its flattened weight list; id is the object identity that
distinguishes independent instances created by the constructor. -/
structure Brain where
  id : ℕ
  weights : List ℚ
deriving DecidableEq, Inhabited

/-- NeuralNetwork.copy (nn.js): builds a new instance (a fresh id) carrying
clones of the weight tensors (the same weight values). -/
def Brain.copy (b : Brain) (freshId : ℕ) : Brain := ⟨freshId, b.weights⟩

/-- NeuralNetwork.mutate (nn.js): every weight selected by the rate test gets a
random Gaussian sample added in place; delta is the sampled additive
perturbation (zero entries for unselected weights), so the id is unchanged. -/
def Brain.mutateBy (b : Brain) (delta : List ℚ) : Brain :=
  ⟨b.id, b.weights.zipWith (· + ·) delta⟩

/-- A terminated agent as ga.js nextGeneration receives it: a brain and the
fitness field still holding the raw checkpoint count. -/
structure SavedAgent where
  brain : Brain
  raw : ℕ
deriving DecidableEq, Inhabited

/-- A terminated agent after ga.js calculateFitness replaced the raw count by
the normalized shaped fitness. -/
structure RankedAgent where
  brain : Brain
  fitness : ℚ
deriving DecidableEq, Inhabited

/-- A particle of the new generation; only its brain matters to the
genetic-algorithm claims. The Particle constructor (ray.js) copies a donor
brain when one is passed and builds a fresh random NeuralNetwork otherwise. -/
structure NewParticle where
  brain : Brain
deriving DecidableEq, Inhabited

/-- The calculateFitness call of ga.js nextGeneration applied to the saved
pool: every raw count is shaped to 2^raw and divided by the pool sum of shaped
values (the agent keeps its brain). -/
def normalizePool (pool : List SavedAgent) : List RankedAgent :=
  pool.map (fun a =>
    ⟨a.brain, particleCalculateFitness a.raw /
      (pool.map (fun b => particleCalculateFitness b.raw)).sum⟩)

/-- currentSavedAgents.sort((a, b) => b.fitness - a.fitness): sort the pool in
descending fitness order. -/
def sortPool (pool : List RankedAgent) : List RankedAgent :=
  pool.mergeSort (fun a b => decide (b.fitness ≤ a.fitness))

/-- ga.js pickOne: roulette-wheel selection of a parent from the saved pool,
then a new particle whose brain is a mutated copy of the parent brain. The
source reads savedAgents[index]; the access is modelled with toNat and a
default element (claim C10 settles when the index is in bounds). -/
def pickOne (pool : List RankedAgent) (r : ℚ) (freshId : ℕ)
    (delta : List ℚ) : NewParticle :=
  let idx := (pickOneIndex (pool.map (fun a => a.fitness)) r).toNat
  ⟨((pool.getD idx default).brain.copy freshId).mutateBy delta⟩

/-- ga.js nextGeneration. Randomness is passed explicitly: rs j is the
random(1) draw of the j-th pickOne call, deltas j its mutation perturbation,
and randomWeights i the engine-initialized weights of the i-th fresh
NeuralNetwork; freshId numbers the brain instances created by this call. The
persistence callback and the dispose calls manage resources only and are not
modelled. Returns (newAgents, newSavedAgents, newGenerationCount). -/
def nextGeneration (pool : List SavedAgent) (generationCount : ℕ)
    (rs : ℕ → ℚ) (deltas : ℕ → List ℚ) (randomWeights : ℕ → List ℚ)
    (freshId : ℕ) :
    List NewParticle × List SavedAgent × ℕ :=
  let ranked := if 0 < pool.length then sortPool (normalizePool pool) else []
  let actualElites := min ELITISM_COUNT pool.length
  let elites := (List.range actualElites).map
    (fun i => NewParticle.mk ((ranked.getD i default).brain.copy (freshId + i)))
  let rest :=
    if 0 < pool.length then
      (List.range (TOTAL - actualElites)).map
        (fun j => pickOne ranked (rs j) (freshId + actualElites + j) (deltas j))
    else
      (List.range (TOTAL - actualElites)).map
        (fun j => NewParticle.mk ⟨freshId + actualElites + j, randomWeights j⟩)
  (elites ++ rest, [], generationCount + 1)

theorem sortPool_pairwise (pool : List RankedAgent) :
    (sortPool pool).Pairwise (fun a b => b.fitness ≤ a.fitness) := by
  have h := @List.sorted_mergeSort RankedAgent
    (fun a b : RankedAgent => decide (b.fitness ≤ a.fitness))
    (fun a b c hab hbc => by
      simp only [decide_eq_true_eq] at *
      exact le_trans hbc hab)
    (fun a b => by
      simp only [Bool.or_eq_true, decide_eq_true_eq]
      exact le_total b.fitness a.fitness)
    pool
  exact h.imp (fun hab => by simpa using hab)

theorem sortPool_perm (pool : List RankedAgent) :
    (sortPool pool).Perm pool :=
  List.mergeSort_perm pool _

theorem sortPool_length (pool : List RankedAgent) :
    (sortPool pool).length = pool.length :=
  (sortPool_perm pool).length_eq

/-- C2: with a non-empty terminated pool, nextGeneration sorts the pool
descending by normalized fitness, and each of the first
min(ELITISM_COUNT, pool size) new agents carries an unmutated copy of the
corresponding top-ranked brain: same weights, fresh object identity distinct
from the donor brain. -/
theorem C2_elitism (pool : List SavedAgent) (generationCount : ℕ)
    (rs : ℕ → ℚ) (deltas : ℕ → List ℚ) (randomWeights : ℕ → List ℚ)
    (freshId : ℕ) (hne : pool ≠ []) (i : ℕ)
    (hi : i < min ELITISM_COUNT pool.length)
    (hfresh : ∀ a ∈ pool, a.brain.id < freshId) :
    (sortPool (normalizePool pool)).Pairwise (fun a b => b.fitness ≤ a.fitness) ∧
    (sortPool (normalizePool pool)).Perm (normalizePool pool) ∧
    ((nextGeneration pool generationCount rs deltas randomWeights freshId).1.getD i default).brain
      = Brain.copy ((sortPool (normalizePool pool)).getD i default).brain (freshId + i) ∧
    ((nextGeneration pool generationCount rs deltas randomWeights freshId).1.getD i default).brain.weights
      = ((sortPool (normalizePool pool)).getD i default).brain.weights ∧
    ((nextGeneration pool generationCount rs deltas randomWeights freshId).1.getD i default).brain.id
      ≠ ((sortPool (normalizePool pool)).getD i default).brain.id := by
  have hip : i < pool.length := lt_of_lt_of_le hi (min_le_right _ _)
  have hpos : 0 < pool.length := Nat.zero_lt_of_lt hip
  have hnlen : (normalizePool pool).length = pool.length := by
    simp [normalizePool]
  have hslen : (sortPool (normalizePool pool)).length = pool.length := by
    rw [sortPool_length, hnlen]
  have hgetD :
      (nextGeneration pool generationCount rs deltas randomWeights freshId).1.getD i default
        = NewParticle.mk
            (Brain.copy ((sortPool (normalizePool pool)).getD i default).brain (freshId + i)) := by
    unfold nextGeneration
    simp only [if_pos hpos]
    rw [List.getD_eq_getElem?_getD, List.getElem?_append_left (by simpa using hi),
      List.getElem?_map, List.getElem?_range (by simpa using hi)]
    rfl
  refine ⟨sortPool_pairwise _, sortPool_perm _, hgetD ▸ rfl, hgetD ▸ rfl, ?_⟩
  rw [hgetD]
  have hmem : (sortPool (normalizePool pool)).getD i default ∈ sortPool (normalizePool pool) := by
    rw [List.getD_eq_getElem?_getD, List.getElem?_eq_getElem (by rw [hslen]; exact hip)]
    exact List.getElem_mem _
  have hmem2 : (sortPool (normalizePool pool)).getD i default ∈ normalizePool pool :=
    (sortPool_perm _).mem_iff.mp hmem
  rcases List.mem_map.mp hmem2 with ⟨a, hap, hae⟩
  have hid : ((sortPool (normalizePool pool)).getD i default).brain.id = a.brain.id := by
    rw [← hae]
  have hlt := hfresh a hap
  simp only [Brain.copy, hid]
  omega

/-- Witness for C2 at a one-agent pool with raw count 3 and fresh id 5. -/
theorem C2_elitism_witness :
    (sortPool (normalizePool [⟨⟨0, [1, 2]⟩, 3⟩])).Pairwise (fun a b => b.fitness ≤ a.fitness) ∧
    (sortPool (normalizePool [⟨⟨0, [1, 2]⟩, 3⟩])).Perm (normalizePool [⟨⟨0, [1, 2]⟩, 3⟩]) ∧
    ((nextGeneration [⟨⟨0, [1, 2]⟩, 3⟩] 7 (fun _ => 0) (fun _ => []) (fun _ => []) 5).1.getD 0 default).brain
      = Brain.copy ((sortPool (normalizePool [⟨⟨0, [1, 2]⟩, 3⟩])).getD 0 default).brain (5 + 0) ∧
    ((nextGeneration [⟨⟨0, [1, 2]⟩, 3⟩] 7 (fun _ => 0) (fun _ => []) (fun _ => []) 5).1.getD 0 default).brain.weights
      = ((sortPool (normalizePool [⟨⟨0, [1, 2]⟩, 3⟩])).getD 0 default).brain.weights ∧
    ((nextGeneration [⟨⟨0, [1, 2]⟩, 3⟩] 7 (fun _ => 0) (fun _ => []) (fun _ => []) 5).1.getD 0 default).brain.id
      ≠ ((sortPool (normalizePool [⟨⟨0, [1, 2]⟩, 3⟩])).getD 0 default).brain.id := by
  refine C2_elitism [⟨⟨0, [1, 2]⟩, 3⟩] 7 (fun _ => 0) (fun _ => []) (fun _ => []) 5
    (by simp) 0 (by norm_num [ELITISM_COUNT]) ?_
  intro a ha
  simp only [List.mem_cons, List.not_mem_nil, or_false] at ha
  rw [ha]
  norm_num

/-- C8: with an empty terminated pool, nextGeneration does not fail: it fills
the whole new generation of TOTAL agents with freshly created random-brain
particles, returns the cleared saved pool, and increments the generation
counter by one. -/
theorem C8_empty_pool (generationCount : ℕ) (rs : ℕ → ℚ)
    (deltas : ℕ → List ℚ) (randomWeights : ℕ → List ℚ) (freshId : ℕ) :
    (nextGeneration [] generationCount rs deltas randomWeights freshId).1.length = TOTAL ∧
    (∀ i, i < TOTAL →
      (nextGeneration [] generationCount rs deltas randomWeights freshId).1.getD i default
        = NewParticle.mk ⟨freshId + i, randomWeights i⟩) ∧
    (nextGeneration [] generationCount rs deltas randomWeights freshId).2.1 = [] ∧
    (nextGeneration [] generationCount rs deltas randomWeights freshId).2.2
      = generationCount + 1 := by
  refine ⟨?_, ?_, rfl, rfl⟩
  · simp [nextGeneration, ELITISM_COUNT]
  · intro i hi
    unfold nextGeneration
    simp only [List.length_nil, lt_irrefl, ite_false, if_false, Nat.min_zero,
      List.range_zero, List.map_nil, List.nil_append, Nat.sub_zero]
    rw [List.getD_eq_getElem?_getD, List.getElem?_map,
      List.getElem?_range (by simpa using hi)]
    simp

/-- Witness for C8: an empty pool with generation count 7 and fresh id 5. -/
theorem C8_empty_pool_witness :
    (nextGeneration [] 7 (fun _ => 0) (fun _ => []) (fun k => [(k : ℚ)]) 5).1.length = TOTAL ∧
    (nextGeneration [] 7 (fun _ => 0) (fun _ => []) (fun k => [(k : ℚ)]) 5).1.getD 0 default
      = NewParticle.mk ⟨5 + 0, [(0 : ℚ)]⟩ ∧
    (nextGeneration [] 7 (fun _ => 0) (fun _ => []) (fun k => [(k : ℚ)]) 5).2.1 = [] ∧
    (nextGeneration [] 7 (fun _ => 0) (fun _ => []) (fun k => [(k : ℚ)]) 5).2.2 = 7 + 1 := by
  obtain ⟨h1, h2, h3, h4⟩ :=
    C8_empty_pool 7 (fun _ => 0) (fun _ => []) (fun k => [(k : ℚ)]) 5
  exact ⟨h1, h2 0 (by norm_num [TOTAL]), h3, h4⟩

/-! ## Ray casting (ray.js Ray.cast) -/

/-- Point of the plane with rational coordinates (p5.Vector used as a point). -/
structure QVec where
  x : ℚ
  y : ℚ
deriving DecidableEq

/-- A wall segment (boundary.js Boundary): two endpoints. -/
structure Wall where
  a : QVec
  b : QVec
deriving DecidableEq

/-- Denominator of the line-line intersection test of Ray.cast, with the ray
segment running from the ray position to position + direction * SIGHT. -/
def castDen (w : Wall) (px py dx dy : ℚ) : ℚ :=
  (w.a.x - w.b.x) * (py - (py + dy * SIGHT)) - (w.a.y - w.b.y) * (px - (px + dx * SIGHT))

/-- Parametric coordinate t of the intersection along the wall (Ray.cast). -/
def castT (w : Wall) (px py dx dy : ℚ) : ℚ :=
  ((w.a.x - px) * (py - (py + dy * SIGHT)) - (w.a.y - py) * (px - (px + dx * SIGHT))) /
    castDen w px py dx dy

/-- Parametric coordinate u of the intersection along the ray segment of
length SIGHT (Ray.cast). -/
def castU (w : Wall) (px py dx dy : ℚ) : ℚ :=
  -((w.a.x - w.b.x) * (w.a.y - py) - (w.a.y - w.b.y) * (w.a.x - px)) /
    castDen w px py dx dy

/-- Ray.cast (ray.js): return the intersection point when the denominator is
nonzero and both parametric coordinates lie strictly between 0 and 1,
otherwise nothing. -/
def rayCast (w : Wall) (px py dx dy : ℚ) : Option QVec :=
  if castDen w px py dx dy = 0 then none
  else if 0 < castT w px py dx dy ∧ castT w px py dx dy < 1 ∧
      0 < castU w px py dx dy ∧ castU w px py dx dy < 1 then
    some ⟨w.a.x + castT w px py dx dy * (w.b.x - w.a.x),
          w.a.y + castT w px py dx dy * (w.b.y - w.a.y)⟩
  else none

theorem cast_param_x (x1 y1 x2 y2 x3 y3 x4 y4 : ℚ)
    (hden : (x1-x2)*(y3-y4) - (y1-y2)*(x3-x4) ≠ 0) :
    x1 + (((x1-x3)*(y3-y4) - (y1-y3)*(x3-x4)) / ((x1-x2)*(y3-y4) - (y1-y2)*(x3-x4))) * (x2-x1)
      = x3 + (-((x1-x2)*(y1-y3) - (y1-y2)*(x1-x3)) / ((x1-x2)*(y3-y4) - (y1-y2)*(x3-x4))) * (x4-x3) := by
  field_simp
  ring

theorem cast_param_y (x1 y1 x2 y2 x3 y3 x4 y4 : ℚ)
    (hden : (x1-x2)*(y3-y4) - (y1-y2)*(x3-x4) ≠ 0) :
    y1 + (((x1-x3)*(y3-y4) - (y1-y3)*(x3-x4)) / ((x1-x2)*(y3-y4) - (y1-y2)*(x3-x4))) * (y2-y1)
      = y3 + (-((x1-x2)*(y1-y3) - (y1-y2)*(x1-x3)) / ((x1-x2)*(y3-y4) - (y1-y2)*(x3-x4))) * (y4-y3) := by
  field_simp
  ring

/-- C3: Ray.cast returns a point exactly when the denominator is nonzero and
both parametric coordinates t (along the wall) and u (along the ray of length
SIGHT) lie strictly between 0 and 1; a zero denominator always yields nothing;
and a returned point lies on both parametrizations: at parameter t along the
wall and at parameter u along the ray segment. -/
theorem C3_ray_cast (w : Wall) (px py dx dy : ℚ) :
    (castDen w px py dx dy = 0 → rayCast w px py dx dy = none) ∧
    ((rayCast w px py dx dy).isSome = true ↔
      castDen w px py dx dy ≠ 0 ∧
      0 < castT w px py dx dy ∧ castT w px py dx dy < 1 ∧
      0 < castU w px py dx dy ∧ castU w px py dx dy < 1) ∧
    (∀ pt, rayCast w px py dx dy = some pt →
      pt.x = w.a.x + castT w px py dx dy * (w.b.x - w.a.x) ∧
      pt.y = w.a.y + castT w px py dx dy * (w.b.y - w.a.y) ∧
      pt.x = px + castU w px py dx dy * (px + dx * SIGHT - px) ∧
      pt.y = py + castU w px py dx dy * (py + dy * SIGHT - py)) := by
  refine ⟨?_, ?_, ?_⟩
  · intro h
    simp [rayCast, h]
  · unfold rayCast
    by_cases hden : castDen w px py dx dy = 0
    · simp [hden]
    · by_cases hin : 0 < castT w px py dx dy ∧ castT w px py dx dy < 1 ∧
          0 < castU w px py dx dy ∧ castU w px py dx dy < 1
      · simp [hden, hin]
      · simp [hden, hin]
  · intro pt hpt
    unfold rayCast at hpt
    by_cases hden : castDen w px py dx dy = 0
    · simp [hden] at hpt
    · by_cases hin : 0 < castT w px py dx dy ∧ castT w px py dx dy < 1 ∧
          0 < castU w px py dx dy ∧ castU w px py dx dy < 1
      · rw [if_neg hden, if_pos hin] at hpt
        obtain ⟨hx, hy⟩ : pt.x = w.a.x + castT w px py dx dy * (w.b.x - w.a.x) ∧
            pt.y = w.a.y + castT w px py dx dy * (w.b.y - w.a.y) := by
          cases hpt.symm
          exact ⟨rfl, rfl⟩
        refine ⟨hx, hy, ?_, ?_⟩
        · rw [hx]
          unfold castT castU castDen
          unfold castDen at hden
          exact cast_param_x w.a.x w.a.y w.b.x w.b.y px py (px + dx * SIGHT) (py + dy * SIGHT) hden
        · rw [hy]
          unfold castT castU castDen
          unfold castDen at hden
          exact cast_param_y w.a.x w.a.y w.b.x w.b.y px py (px + dx * SIGHT) (py + dy * SIGHT) hden
      · simp [hden, hin] at hpt

/-- Witness for C3: the wall from (5, -5) to (5, 5) hit by the ray from the
origin with direction (1, 0); the returned point (5, 0) lies at parameter t
along the wall and parameter u along the ray. -/
theorem C3_ray_cast_witness :
    (⟨5, 0⟩ : QVec).x
        = (⟨⟨5, -5⟩, ⟨5, 5⟩⟩ : Wall).a.x + castT ⟨⟨5, -5⟩, ⟨5, 5⟩⟩ 0 0 1 0 *
          ((⟨⟨5, -5⟩, ⟨5, 5⟩⟩ : Wall).b.x - (⟨⟨5, -5⟩, ⟨5, 5⟩⟩ : Wall).a.x) ∧
    (⟨5, 0⟩ : QVec).y
        = (⟨⟨5, -5⟩, ⟨5, 5⟩⟩ : Wall).a.y + castT ⟨⟨5, -5⟩, ⟨5, 5⟩⟩ 0 0 1 0 *
          ((⟨⟨5, -5⟩, ⟨5, 5⟩⟩ : Wall).b.y - (⟨⟨5, -5⟩, ⟨5, 5⟩⟩ : Wall).a.y) ∧
    (⟨5, 0⟩ : QVec).x = 0 + castU ⟨⟨5, -5⟩, ⟨5, 5⟩⟩ 0 0 1 0 * (0 + 1 * SIGHT - 0) ∧
    (⟨5, 0⟩ : QVec).y = 0 + castU ⟨⟨5, -5⟩, ⟨5, 5⟩⟩ 0 0 1 0 * (0 + 0 * SIGHT - 0) :=
  (C3_ray_cast ⟨⟨5, -5⟩, ⟨5, 5⟩⟩ 0 0 1 0).2.2 ⟨5, 0⟩
    (by norm_num [rayCast, castDen, castT, castU, SIGHT])

/-! ## Particle physics and lifecycle (ray.js Particle)

The particle state carries real coordinates because p5.Vector.limit and
pldistance take square roots. Functions of the source whose result can be
irrational are embedded as step relations (one conjunct per source line). -/

/-- Two dimensional vector with real components (p5.Vector). -/
structure Vec where
  x : ℝ
  y : ℝ

theorem Vec.ext_iff2 (v w : Vec) : v = w ↔ v.x = w.x ∧ v.y = w.y := by
  cases v; cases w; simp

/-- A checkpoint segment (boundary.js Boundary) with real endpoints. -/
structure Boundary where
  a : Vec
  b : Vec

/-- Particle state (ray.js): the fields the per-tick operations read or write.
The sensor ray arrays, the cached goal segment and the display state are not
modelled. -/
structure Particle where
  pos : Vec
  vel : Vec
  acc : Vec
  fitness : ℕ
  index : ℕ
  counter : ℕ
  dead : Bool
  finished : Bool

/-- Particle constructor (ray.js): this.maxspeed = 5. -/
def maxspeed : ℝ := 5

/-- createCanvas(simulationAreaWidth + viewAreaWidth, trackheight): the canvas
width 1000 + 350 used by Particle.bounds as the world width. -/
def canvasWidth : ℝ := 1350

/-- trackheight (config.js): the canvas height used by Particle.bounds. -/
def canvasHeight : ℝ := 800

/-- The capture test of Particle.check (ray.js): pldistance(goal.a, goal.b,
pos.x, pos.y) < 5, where pldistance divides the absolute cross-product form by
the distance between the segment endpoints. -/
def captureHit (goal : Boundary) (x y : ℝ) : Prop :=
  |(goal.b.y - goal.a.y) * x - (goal.b.x - goal.a.x) * y +
      goal.b.x * goal.a.y - goal.b.y * goal.a.x| /
    Real.sqrt ((goal.b.x - goal.a.x) ^ 2 + (goal.b.y - goal.a.y) ^ 2) < 5

/-- Particle.check (ray.js): skipped when finished; otherwise the goal is
checkpoints[index] and, when the capture test passes, index advances by one
modulo the checkpoint count, fitness increments, and the no-progress counter
resets to 0. The relation holds between the states before and after one call. -/
def checkStep (cps : List Boundary) (p q : Particle) : Prop :=
  (p.finished = true ∧ q = p) ∨
  (p.finished = false ∧ ∃ h : p.index < cps.length,
    (captureHit (cps.get ⟨p.index, h⟩) p.pos.x p.pos.y ∧
      q = { p with index := (p.index + 1) % cps.length,
                   fitness := p.fitness + 1,
                   counter := 0 }) ∨
    (¬ captureHit (cps.get ⟨p.index, h⟩) p.pos.x p.pos.y ∧ q = p))

/-- Modelled from the spec: the module particle.js, which is not under src/,
additionally tracks lapsCompleted, "incremented each time checkpointIndex
wraps to 0"; on a capture at checkpointIndex idx out of count checkpoints the
new lap total is laps + 1 exactly when the index wraps. -/
def lapsAfterCapture (count idx laps : ℕ) : ℕ :=
  if (idx + 1) % count = 0 then laps + 1 else laps

/-- p5.Vector.limit(m): the vector is unchanged when its squared magnitude is
at most m^2, otherwise it is divided by its magnitude and multiplied by m. -/
def limitRel (v : Vec) (m : ℝ) (w : Vec) : Prop :=
  (v.x ^ 2 + v.y ^ 2 ≤ m ^ 2 ∧ w = v) ∨
  (m ^ 2 < v.x ^ 2 + v.y ^ 2 ∧
    w.x = v.x / Real.sqrt (v.x ^ 2 + v.y ^ 2) * m ∧
    w.y = v.y / Real.sqrt (v.x ^ 2 + v.y ^ 2) * m)

/-- Particle.update (ray.js): skipped unless the particle is alive; otherwise,
in source order: pos.add(vel), then vel.add(acc), then vel.limit(maxspeed),
then acc.set(0, 0), then counter++ with death when the counter exceeds
LIFESPAN. The sensor-ray repositioning touches no modelled field. -/
def updateStep (p q : Particle) : Prop :=
  (¬ (p.dead = false ∧ p.finished = false) ∧ q = p) ∨
  (p.dead = false ∧ p.finished = false ∧
    q.pos = ⟨p.pos.x + p.vel.x, p.pos.y + p.vel.y⟩ ∧
    limitRel ⟨p.vel.x + p.acc.x, p.vel.y + p.acc.y⟩ maxspeed q.vel ∧
    q.acc = ⟨0, 0⟩ ∧
    q.counter = p.counter + 1 ∧
    q.dead = (if LIFESPAN < p.counter + 1 then true else p.dead) ∧
    q.finished = p.finished ∧
    q.fitness = p.fitness ∧
    q.index = p.index)

/-- The integrate order claimed by the spec, for comparison with updateStep:
velocity += acceleration, clamp, then position += the updated velocity, then
acceleration reset; bookkeeping as in updateStep. -/
def updateStepSpecOrder (p q : Particle) : Prop :=
  (¬ (p.dead = false ∧ p.finished = false) ∧ q = p) ∨
  (p.dead = false ∧ p.finished = false ∧
    limitRel ⟨p.vel.x + p.acc.x, p.vel.y + p.acc.y⟩ maxspeed q.vel ∧
    q.pos = ⟨p.pos.x + q.vel.x, p.pos.y + q.vel.y⟩ ∧
    q.acc = ⟨0, 0⟩ ∧
    q.counter = p.counter + 1 ∧
    q.dead = (if LIFESPAN < p.counter + 1 then true else p.dead) ∧
    q.finished = p.finished ∧
    q.fitness = p.fitness ∧
    q.index = p.index)

/-- Particle.bounds (ray.js): the particle dies when its position leaves the
canvas; no other field is touched, and the method is not guarded on state. -/
def outsideCanvas (p : Particle) : Prop :=
  canvasWidth < p.pos.x ∨ p.pos.x < 0 ∨ canvasHeight < p.pos.y ∨ p.pos.y < 0

/-- Relation between the states before and after one Particle.bounds call. -/
def boundsStep (p q : Particle) : Prop :=
  (outsideCanvas p ∧ q = { p with dead := true }) ∨ (¬ outsideCanvas p ∧ q = p)

theorem lapsAfterCapture_wrap (count idx laps : ℕ) (h : idx < count) :
    lapsAfterCapture count idx laps = laps + 1 ↔ idx = count - 1 := by
  unfold lapsAfterCapture
  constructor
  · intro he
    by_cases hc : (idx + 1) % count = 0
    · have hle := Nat.le_of_dvd (Nat.succ_pos idx) (Nat.dvd_of_mod_eq_zero hc)
      omega
    · rw [if_neg hc] at he
      omega
  · intro he
    have hc : (idx + 1) % count = 0 := by
      subst he
      rw [show count - 1 + 1 = count by omega, Nat.mod_self]
    rw [if_pos hc]

/-- C4: on a tick where a non-finished particle passes the capture test for its
current target checkpoint, check advances the index by exactly one modulo the
checkpoint count, increments the raw fitness by exactly one, resets the
no-progress counter to 0, and the spec-modelled lap total increments exactly
when the index wraps from count - 1 to 0. -/
theorem C4_checkpoint_capture (cps : List Boundary) (p q : Particle) (laps : ℕ)
    (hfin : p.finished = false) (hidx : p.index < cps.length)
    (hcap : captureHit (cps.get ⟨p.index, hidx⟩) p.pos.x p.pos.y)
    (hstep : checkStep cps p q) :
    q.index = (p.index + 1) % cps.length ∧
    q.fitness = p.fitness + 1 ∧
    q.counter = 0 ∧
    (lapsAfterCapture cps.length p.index laps = laps + 1 ↔ p.index = cps.length - 1) := by
  rcases hstep with ⟨hf, _⟩ | ⟨_, hex⟩
  · rw [hfin] at hf
    exact absurd hf (by simp)
  · obtain ⟨h2, hsub⟩ := hex
    rcases hsub with ⟨_, hq⟩ | ⟨hnc, _⟩
    · subst hq
      exact ⟨rfl, rfl, rfl, lapsAfterCapture_wrap cps.length p.index laps hidx⟩
    · exact absurd hcap hnc

/-- The two-checkpoint track used by the concrete particles below. -/
def checkpointsW : List Boundary := [⟨⟨0, 0⟩, ⟨10, 0⟩⟩, ⟨⟨0, 5⟩, ⟨10, 5⟩⟩]

theorem captureHit_demo : captureHit ⟨⟨0, 5⟩, ⟨10, 5⟩⟩ 1 6 := by
  show |((5 : ℝ) - 5) * 1 - ((10 : ℝ) - 0) * 6 + 10 * 5 - 5 * 0| /
      Real.sqrt (((10 : ℝ) - 0) ^ 2 + ((5 : ℝ) - 5) ^ 2) < 5
  rw [show ((10 : ℝ) - 0) ^ 2 + ((5 : ℝ) - 5) ^ 2 = 10 ^ 2 by norm_num,
    Real.sqrt_sq (by norm_num : (0 : ℝ) ≤ 10)]
  norm_num

/-- A live particle at (1, 6) targeting checkpoint 1 of checkpointsW. -/
def captureP : Particle := ⟨⟨1, 6⟩, ⟨0, 0⟩, ⟨0, 0⟩, 3, 1, 9, false, false⟩

/-- The state of captureP after the capturing check call. -/
def captureQ : Particle := ⟨⟨1, 6⟩, ⟨0, 0⟩, ⟨0, 0⟩, 4, 0, 0, false, false⟩

theorem checkStep_captureP : checkStep checkpointsW captureP captureQ := by
  refine Or.inr ⟨rfl, ⟨by norm_num [checkpointsW, captureP], Or.inl ⟨?_, ?_⟩⟩⟩
  · exact captureHit_demo
  · rfl

/-- Witness for C4 at captureP on checkpointsW: index 1 wraps to 0 out of 2
checkpoints, fitness 3 becomes 4, the counter resets, and the lap total
increments. -/
theorem C4_checkpoint_capture_witness :
    captureQ.index = (captureP.index + 1) % checkpointsW.length ∧
    captureQ.fitness = captureP.fitness + 1 ∧
    captureQ.counter = 0 ∧
    (lapsAfterCapture checkpointsW.length captureP.index 0 = 0 + 1 ↔
      captureP.index = checkpointsW.length - 1) :=
  C4_checkpoint_capture checkpointsW captureP captureQ 0 rfl
    (by norm_num [checkpointsW, captureP]) captureHit_demo checkStep_captureP

/-- C5 (amended): Particle.update is guarded on both terminal flags and leaves
a dead or finished particle entirely unchanged; Particle.check is guarded only
on finished, so a finished particle is unchanged by it; and Particle.bounds
never changes position, velocity, acceleration, fitness, checkpoint index or
the no-progress counter. (As stated the claim fails: check is not guarded on
dead, and look runs unguarded - see the counterexample.) -/
theorem C5_terminal_guards (cps : List Boundary) :
    (∀ p q : Particle, (p.dead = true ∨ p.finished = true) → updateStep p q → q = p) ∧
    (∀ p q : Particle, p.finished = true → checkStep cps p q → q = p) ∧
    (∀ p q : Particle, boundsStep p q →
      q.pos = p.pos ∧ q.vel = p.vel ∧ q.acc = p.acc ∧ q.fitness = p.fitness ∧
      q.index = p.index ∧ q.counter = p.counter) := by
  refine ⟨?_, ?_, ?_⟩
  · intro p q hterm hstep
    rcases hstep with ⟨_, hq⟩ | ⟨hd, hf, _⟩
    · exact hq
    · rcases hterm with h | h
      · rw [hd] at h; exact absurd h (by simp)
      · rw [hf] at h; exact absurd h (by simp)
  · intro p q hfin hstep
    rcases hstep with ⟨_, hq⟩ | ⟨hf, _⟩
    · exact hq
    · rw [hfin] at hf; exact absurd hf (by simp)
  · intro p q hstep
    rcases hstep with ⟨_, hq⟩ | ⟨_, hq⟩ <;> subst hq <;> exact ⟨rfl, rfl, rfl, rfl, rfl, rfl⟩

/-- A dead (not finished) particle in capture range of checkpoint 1. -/
def deadCaptureP : Particle := ⟨⟨1, 6⟩, ⟨0, 0⟩, ⟨0, 0⟩, 3, 1, 9, true, false⟩

/-- The state of deadCaptureP after one check call: fitness changed. -/
def deadCaptureQ : Particle := ⟨⟨1, 6⟩, ⟨0, 0⟩, ⟨0, 0⟩, 4, 0, 0, true, false⟩

/-- Counterexample for C5 as stated: check on a dead (non-finished) particle
inside the capture radius still advances the checkpoint index, increments the
fitness and resets the counter, so a dead agent is not left unchanged by the
per-tick operations. -/
theorem C5_counterexample :
    deadCaptureP.dead = true ∧
    checkStep checkpointsW deadCaptureP deadCaptureQ ∧
    deadCaptureQ.fitness ≠ deadCaptureP.fitness := by
  refine ⟨rfl, ?_, by norm_num [deadCaptureP, deadCaptureQ]⟩
  refine Or.inr ⟨rfl, ⟨by norm_num [checkpointsW, deadCaptureP], Or.inl ⟨?_, ?_⟩⟩⟩
  · exact captureHit_demo
  · rfl

/-- A finished particle, used to exercise the check guard. -/
def finishedP : Particle := ⟨⟨2, 2⟩, ⟨1, 0⟩, ⟨0, 0⟩, 5, 0, 3, false, true⟩

/-- A live particle inside the canvas, used to exercise bounds. -/
def inCanvasP : Particle := ⟨⟨7, 8⟩, ⟨1, 0⟩, ⟨0, 0⟩, 2, 0, 3, false, false⟩

theorem updateStep_deadCaptureP : updateStep deadCaptureP deadCaptureP :=
  Or.inl ⟨by norm_num [deadCaptureP], rfl⟩

theorem boundsStep_inCanvasP : boundsStep inCanvasP inCanvasP := by
  refine Or.inr ⟨?_, rfl⟩
  unfold outsideCanvas
  push_neg
  norm_num [inCanvasP, canvasWidth, canvasHeight]

/-- Witness for C5 (amended): the dead particle is unchanged by update, the
finished particle is unchanged by check, and bounds preserves the listed
fields of an in-canvas particle. -/
theorem C5_terminal_guards_witness :
    (deadCaptureP = deadCaptureP) ∧
    (finishedP = finishedP) ∧
    (inCanvasP.pos = inCanvasP.pos ∧ inCanvasP.vel = inCanvasP.vel ∧
      inCanvasP.acc = inCanvasP.acc ∧ inCanvasP.fitness = inCanvasP.fitness ∧
      inCanvasP.index = inCanvasP.index ∧ inCanvasP.counter = inCanvasP.counter) := by
  obtain ⟨h1, h2, h3⟩ := C5_terminal_guards checkpointsW
  exact ⟨h1 deadCaptureP deadCaptureP (Or.inl rfl) updateStep_deadCaptureP,
    h2 finishedP finishedP rfl (Or.inl ⟨rfl, rfl⟩),
    h3 inCanvasP inCanvasP boundsStep_inCanvasP⟩

/-- C6 (amended): the integrate phase of a live particle executes in source
order position += velocity first (using the pre-step velocity), then
velocity += acceleration followed by the clamp to maxspeed, then the
acceleration reset - so the position update of a tick does not see that tick's
acceleration. (The order claimed by the spec fails: see the counterexample.) -/
theorem C6_integration_order (p q : Particle)
    (h : p.dead = false ∧ p.finished = false) (hstep : updateStep p q) :
    q.pos = ⟨p.pos.x + p.vel.x, p.pos.y + p.vel.y⟩ ∧
    limitRel ⟨p.vel.x + p.acc.x, p.vel.y + p.acc.y⟩ maxspeed q.vel ∧
    q.acc = ⟨0, 0⟩ := by
  rcases hstep with ⟨hg, _⟩ | ⟨_, _, hpos, hlim, hacc, _⟩
  · exact absurd h hg
  · exact ⟨hpos, hlim, hacc⟩

/-- A live particle with velocity (1, 0) and acceleration (1, 0). -/
def livePBefore : Particle := ⟨⟨0, 0⟩, ⟨1, 0⟩, ⟨1, 0⟩, 0, 0, 0, false, false⟩

/-- The state after one update of livePBefore: the position moved by the old
velocity (1, 0) while the velocity became (2, 0). -/
def livePAfter : Particle := ⟨⟨1, 0⟩, ⟨2, 0⟩, ⟨0, 0⟩, 0, 0, 1, false, false⟩

theorem updateStep_liveP : updateStep livePBefore livePAfter := by
  refine Or.inr ⟨rfl, rfl, ?_, Or.inl ⟨?_, ?_⟩, ?_, rfl, ?_, rfl, rfl, rfl⟩
  · show (⟨1, 0⟩ : Vec) = ⟨0 + 1, 0 + 0⟩
    rw [Vec.ext_iff2]
    norm_num
  · show ((1 : ℝ) + 1) ^ 2 + (0 + 0) ^ 2 ≤ maxspeed ^ 2
    norm_num [maxspeed]
  · show (⟨2, 0⟩ : Vec) = ⟨1 + 1, 0 + 0⟩
    rw [Vec.ext_iff2]
    norm_num
  · rfl
  · show false = if LIFESPAN < 0 + 1 then true else false
    norm_num [LIFESPAN]

/-- Counterexample for C6 as stated: for the live particle with position
(0, 0), velocity (1, 0) and acceleration (1, 0), the source order yields
position (1, 0) (the pre-step velocity moved the particle), while the claimed
order velocity-then-position would demand position (2, 0). -/
theorem C6_integration_order_counterexample :
    updateStep livePBefore livePAfter ∧
    ¬ updateStepSpecOrder livePBefore livePAfter := by
  refine ⟨updateStep_liveP, ?_⟩
  intro h
  rcases h with ⟨hg, _⟩ | ⟨_, _, _, hpos, _⟩
  · exact hg ⟨rfl, rfl⟩
  · have hx : livePAfter.pos.x = livePBefore.pos.x + livePAfter.vel.x := by
      rw [hpos]
    have : (1 : ℝ) = 0 + 2 := hx
    norm_num at this

/-- Witness for C6 (amended) at livePBefore: after the update the position is
the old position plus the old velocity. -/
theorem C6_integration_order_witness :
    livePAfter.pos = ⟨livePBefore.pos.x + livePBefore.vel.x,
      livePBefore.pos.y + livePBefore.vel.y⟩ ∧
    limitRel ⟨livePBefore.vel.x + livePBefore.acc.x,
      livePBefore.vel.y + livePBefore.acc.y⟩ maxspeed livePAfter.vel ∧
    livePAfter.acc = ⟨0, 0⟩ :=
  C6_integration_order livePBefore livePAfter ⟨rfl, rfl⟩ updateStep_liveP

theorem clamp_magSq (a b m : ℝ) (hpos : 0 < a ^ 2 + b ^ 2) :
    (a / Real.sqrt (a ^ 2 + b ^ 2) * m) ^ 2 +
      (b / Real.sqrt (a ^ 2 + b ^ 2) * m) ^ 2 = m ^ 2 := by
  have hsqrt : Real.sqrt (a ^ 2 + b ^ 2) ≠ 0 :=
    ne_of_gt (Real.sqrt_pos.mpr hpos)
  field_simp
  ring

/-- C7: after one update step of a live particle, whatever the starting
velocity and the accumulated acceleration, the magnitude of the velocity is at
most maxspeed. -/
theorem C7_velocity_bound (p q : Particle)
    (h : p.dead = false ∧ p.finished = false) (hstep : updateStep p q) :
    Real.sqrt (q.vel.x ^ 2 + q.vel.y ^ 2) ≤ maxspeed := by
  rcases hstep with ⟨hg, _⟩ | ⟨_, _, _, hlim, _⟩
  · exact absurd h hg
  · have hms : (0 : ℝ) ≤ maxspeed := by norm_num [maxspeed]
    rcases hlim with ⟨hle, hw⟩ | ⟨hgt, hwx, hwy⟩
    · have hq : q.vel.x ^ 2 + q.vel.y ^ 2 ≤ maxspeed ^ 2 := by
        rw [hw]; exact hle
      calc Real.sqrt (q.vel.x ^ 2 + q.vel.y ^ 2)
          ≤ Real.sqrt (maxspeed ^ 2) := Real.sqrt_le_sqrt hq
        _ = maxspeed := Real.sqrt_sq hms
    · have hpos : 0 < (p.vel.x + p.acc.x) ^ 2 + (p.vel.y + p.acc.y) ^ 2 := by
        have h25 : (0 : ℝ) < maxspeed ^ 2 := by norm_num [maxspeed]
        exact lt_trans h25 hgt
      have hq : q.vel.x ^ 2 + q.vel.y ^ 2 = maxspeed ^ 2 := by
        rw [hwx, hwy]
        exact clamp_magSq (p.vel.x + p.acc.x) (p.vel.y + p.acc.y) maxspeed hpos
      rw [hq, Real.sqrt_sq hms]

/-- Witness for C7 at livePBefore: the post-update speed sqrt(4) is at most 5. -/
theorem C7_velocity_bound_witness :
    Real.sqrt (livePAfter.vel.x ^ 2 + livePAfter.vel.y ^ 2) ≤ maxspeed :=
  C7_velocity_bound livePBefore livePAfter ⟨rfl, rfl⟩ updateStep_liveP
